import Mathlib

/-!
Shallow embedding of the query / pagination / statistics layer of the
authors-and-books catalog application: the book search route handler
(`src/unnamed/part_001`) and the author statistics route handler
(`src/unnamed/part_000`).  Machine numbers are modelled as `ℤ` (the
handlers only do small-integer arithmetic) and nullable columns as
`Option`.
-/

namespace Catalog

/-! ### Search route: parameter normalization (part_001, lines 14-26)

`page` and `limit` arrive as parsed integers (`parseInt` of query
parameters, with defaults `1` and `10` supplied before parsing). -/

/-- Source: `const limit = Math.min(parseInt(...), 50)`: the parsed limit is
clamped from above to 50, and only from above. -/
def effLimit (parsedLimit : ℤ) : ℤ := min parsedLimit 50

/-- Source: `const page = parseInt(searchParams.get('page') || '1')`: the parsed
page is used as-is, with no clamping. -/
def effPage (parsedPage : ℤ) : ℤ := parsedPage

/-- Source: `const skip = (page - 1) * limit`. -/
def skipOf (page limit : ℤ) : ℤ := (page - 1) * limit

/-- Source: `const validSortFields = ['title', 'publishedYear', 'createdAt']`. -/
def validSortFields : List String := ["title", "publishedYear", "createdAt"]

/-- Source: `const sortField = validSortFields.includes(sortBy) ? sortBy : 'createdAt'`. -/
def sortField (sortBy : String) : String :=
  if sortBy ∈ validSortFields then sortBy else "createdAt"

/-- Source: `const sortOrder = order === 'asc' ? 'asc' : 'desc'`. -/
def sortOrder (order : String) : String :=
  if order = "asc" then "asc" else "desc"

/-! ### Search route: filter construction (part_001, lines 29-52) -/

/-- The three string-valued search parameters, after the handler's
`searchParams.get(...) || ''` defaulting: an absent parameter is the
empty string. -/
structure SearchQuery where
  search : String
  genre : String
  authorName : String
  deriving Repr, DecidableEq

/-- The fields of a book row that the search `where` clause can touch:
its title, its (nullable) genre, and the joined owning author's name. -/
structure BookRow where
  id : String
  title : String
  genre : Option String
  authorName : String
  deriving Repr, DecidableEq

/-- Contiguous-subsequence test on lists: `needle` occurs somewhere in
`haystack`. -/
def containsSeq {α : Type} [BEq α] : List α → List α → Bool
  | [], needle => needle.isEmpty
  | a :: t, needle => needle.isPrefixOf (a :: t) || containsSeq t needle

/-- Prisma `{ contains: needle, mode: 'insensitive' }`: case-insensitive
substring containment. -/
def containsCI (haystack needle : String) : Bool :=
  containsSeq (haystack.toList.map Char.toLower) (needle.toList.map Char.toLower)

/-- The `where` object: each field is `none` when the corresponding
`if (param)` guard skipped it. -/
structure WhereClause where
  titleContains : Option String
  genreEquals : Option String
  authorNameContains : Option String
  deriving Repr, DecidableEq

/-- Lines 29-52: `if (search) { where.title = {contains, insensitive} }`,
`if (genre) { where.genre = genre }`, `if (authorName) { where.author =
{name: {contains, insensitive}} }`.  A JavaScript string is truthy
exactly when it is non-empty. -/
def buildWhere (q : SearchQuery) : WhereClause :=
  { titleContains := if q.search = "" then none else some q.search
    genreEquals := if q.genre = "" then none else some q.genre
    authorNameContains := if q.authorName = "" then none else some q.authorName }

/-- Semantics of the `where` clause on one candidate row: the conjunction
of the conditions present; an absent field is no constraint.  Genre is an
exact string match (a null genre matches nothing). -/
def WhereClause.matches (w : WhereClause) (b : BookRow) : Bool :=
  (match w.titleContains with
   | none => true
   | some s => containsCI b.title s) &&
  (match w.genreEquals with
   | none => true
   | some g => decide (b.genre = some g)) &&
  (match w.authorNameContains with
   | none => true
   | some s => containsCI b.authorName s)

/-! ### Search route: pagination payload (part_001, lines 55, 81-94) -/

structure PaginationInfo where
  page : ℤ
  limit : ℤ
  total : ℤ
  totalPages : ℤ
  hasNext : Bool
  hasPrev : Bool
  deriving Repr, DecidableEq

/-- Models `Math.ceil(t / l)` on integers: the ceiling of the exact quotient.
Computed as `-⌊-t / l⌋`; Lean's integer `/` rounds toward `-∞` for a
positive divisor, and `pagination_math` proves this equal to
`⌈(t : ℚ) / l⌉` whenever `1 ≤ l`. -/
def mathCeilDiv (t l : ℤ) : ℤ := -(-t / l)

/-- Source: `totalPages = Math.ceil(total / limit)`, `hasNext = page < totalPages`,
`hasPrev = page > 1`, packaged with the echoed `page`, `limit`, `total`. -/
def mkPaginationInfo (page limit total : ℤ) : PaginationInfo :=
  let totalPages : ℤ := mathCeilDiv total limit
  { page := page
    limit := limit
    total := total
    totalPages := totalPages
    hasNext := decide (page < totalPages)
    hasPrev := decide (page > 1) }

/-! ### Statistics route (part_000)

The route fetches the author's books ordered by `publishedYear`
ascending and aggregates them. -/

/-- The columns selected for each book (part_000, lines 27-38). -/
structure Book where
  id : String
  title : String
  publishedYear : Option ℤ
  pages : Option ℤ
  genre : Option String
  deriving Repr, DecidableEq

/-- The record `{ title, year }` as placed in `firstBook` / `latestBook`. -/
structure BookRef where
  title : String
  year : Option ℤ
  deriving Repr, DecidableEq

/-- The record `{ title, pages }` as placed in `longestBook` / `shortestBook`. -/
structure PagesRef where
  title : String
  pages : Option ℤ
  deriving Repr, DecidableEq

/-- The JSON payload of `GET /authors/{id}/stats` (author identity
fields omitted: they are copied verbatim from the author row). -/
structure AuthorStats where
  totalBooks : ℕ
  firstBook : Option BookRef
  latestBook : Option BookRef
  averagePages : ℤ
  genres : List String
  longestBook : Option PagesRef
  shortestBook : Option PagesRef
  deriving Repr, DecidableEq

/-- Source: `book.pages || 0` on a row (null coalesces to 0; a stored 0 also
yields 0, which coincides). -/
def pagesOr0 (b : Book) : ℤ := b.pages.getD 0

/-- Step of `booksWithPages.reduce((max, book) => (book.pages || 0) >
(max.pages || 0) ? book : max)`. -/
def pickLongest (acc b : Book) : Book :=
  if pagesOr0 b > pagesOr0 acc then b else acc

/-- Step of `booksWithPages.reduce((min, book) => (book.pages || 0) <
(min.pages || 0) ? book : min)`. -/
def pickShortest (acc b : Book) : Book :=
  if pagesOr0 b < pagesOr0 acc then b else acc

/-- Source: `booksWithPages.reduce((sum, book) => sum + (book.pages || 0), 0)`. -/
def sumPages (l : List Book) : ℤ := l.foldl (fun s b => s + pagesOr0 b) 0

/-- Models `Math.round(s / n)` on integers with `n > 0`: JavaScript rounds half
toward `+∞`, i.e. `⌊s/n + 1/2⌋ = ⌊(2s + n) / (2n)⌋`, which is integer
floor division by the positive `2n`.  `stats_average_pages` proves this
equal to `round ((s : ℚ) / n)`. -/
def mathRoundDiv (s n : ℤ) : ℤ := (2 * s + n) / (2 * n)

/-- Boolean lexicographic order on character lists (the ordering JS
`Array.prototype.sort()` applies to strings). -/
def lexLE : List Char → List Char → Bool
  | [], _ => true
  | _ :: _, [] => false
  | a :: as, b :: bs =>
    if a < b then true
    else if a = b then lexLE as bs
    else false

/-- Lexicographic order on strings, proved equivalent to `String` `≤`
in `strLE_iff_le`. -/
def strLE (a b : String) : Bool := lexLE a.toList b.toList

/-- Source: `books.filter(book => book.genre)` keeps truthy genres only: a null
genre and the empty string are both falsy; `.map(book => book.genre)`
then extracts the value.  Fused here into one `filterMap`. -/
def truthyGenre (b : Book) : Option String :=
  match b.genre with
  | some g => if g = "" then none else some g
  | none => none

/-- The statistics aggregation (part_000, lines 41-118), applied to the
author's book list in store order (`publishedYear` ascending). -/
def computeStats (books : List Book) : AuthorStats :=
  if books.isEmpty then
    { totalBooks := 0
      firstBook := none
      latestBook := none
      averagePages := 0
      genres := []
      longestBook := none
      shortestBook := none }
  else
    let booksWithYear := books.filter fun b => b.publishedYear.isSome
    let firstBook :=
      booksWithYear.head?.map fun b => BookRef.mk b.title b.publishedYear
    let latestBook :=
      booksWithYear.getLast?.map fun b => BookRef.mk b.title b.publishedYear
    let booksWithPages := books.filter fun b => b.pages.isSome
    let averagePages : ℤ :=
      if 0 < booksWithPages.length then
        mathRoundDiv (sumPages booksWithPages) (booksWithPages.length : ℤ)
      else 0
    let genres :=
      List.insertionSort (fun a b => strLE a b = true) (books.filterMap truthyGenre).dedup
    let longestBook :=
      match booksWithPages with
      | [] => none
      | b :: bs => some (bs.foldl pickLongest b)
    let shortestBook :=
      match booksWithPages with
      | [] => none
      | b :: bs => some (bs.foldl pickShortest b)
    { totalBooks := books.length
      firstBook := firstBook
      latestBook := latestBook
      averagePages := averagePages
      genres := genres
      longestBook := longestBook.map fun b => PagesRef.mk b.title b.pages
      shortestBook := shortestBook.map fun b => PagesRef.mk b.title b.pages }

/-- Ordering used by the store for `orderBy: { publishedYear: 'asc' }`:
defined years ascend, null years sort last. -/
def yearLE (a b : Option ℤ) : Bool :=
  match a, b with
  | some x, some y => decide (x ≤ y)
  | some _, none => true
  | none, none => true
  | none, some _ => false

/-! ### Helper lemmas -/

/-- Lemma: `mathCeilDiv` is the rational ceiling of the quotient, for a
positive divisor. -/
theorem mathCeilDiv_eq_ceil (t l : ℤ) (hl : 1 ≤ l) :
    mathCeilDiv t l = ⌈(t : ℚ) / (l : ℚ)⌉ := by
  have hd : (l.toNat : ℤ) = l := Int.toNat_of_nonneg (by omega)
  have h := Rat.floor_intCast_div_natCast (-t) l.toNat
  have h2 : ((l.toNat : ℕ) : ℚ) = (l : ℚ) :=
    by exact_mod_cast congrArg (Int.cast : ℤ → ℚ) hd
  rw [h2, hd] at h
  push_cast at h
  rw [neg_div, Int.floor_neg] at h
  rw [mathCeilDiv]
  omega

/-- Lemma: `mathRoundDiv` is the rounded rational quotient, for a positive
divisor. -/
theorem mathRoundDiv_eq_round (s n : ℤ) (hn : 1 ≤ n) :
    mathRoundDiv s n = round ((s : ℚ) / (n : ℚ)) := by
  rw [round_eq, mathRoundDiv]
  have hn2 : ((2 * n).toNat : ℤ) = 2 * n := Int.toNat_of_nonneg (by omega)
  have h1 : ((s : ℚ) / (n : ℚ) + 1 / 2) = ((2 * s + n : ℤ) : ℚ) / (((2 * n).toNat : ℕ) : ℚ) := by
    have h2 : (((2 * n).toNat : ℕ) : ℚ) = ((2 * n : ℤ) : ℚ) :=
      by exact_mod_cast congrArg (Int.cast : ℤ → ℚ) hn2
    rw [h2]
    have hq : (n : ℚ) ≠ 0 := by
      simp only [ne_eq, Int.cast_eq_zero]
      omega
    push_cast
    field_simp
    ring
  rw [h1, Rat.floor_intCast_div_natCast, hn2]

/-! ### Claim theorems -/

/-- C1: for every search request with total ≥ 0, effective page ≥ 1 and
effective limit in [1,50], the returned pagination block satisfies
`totalPages = ⌈total / limit⌉` (zero exactly when `total` is zero),
`hasNext ↔ page < totalPages`, and `hasPrev ↔ page > 1`. -/
theorem pagination_math (total page limit : ℤ)
    (htotal : 0 ≤ total) (hpage : 1 ≤ page) (hlo : 1 ≤ limit) (hhi : limit ≤ 50) :
    (mkPaginationInfo page limit total).totalPages = ⌈(total : ℚ) / (limit : ℚ)⌉ ∧
    ((mkPaginationInfo page limit total).totalPages = 0 ↔ total = 0) ∧
    ((mkPaginationInfo page limit total).hasNext = true ↔
      page < (mkPaginationInfo page limit total).totalPages) ∧
    ((mkPaginationInfo page limit total).hasPrev = true ↔ 1 < page) := by
  have hceil : (mkPaginationInfo page limit total).totalPages = ⌈(total : ℚ) / (limit : ℚ)⌉ := by
    simpa [mkPaginationInfo] using mathCeilDiv_eq_ceil total limit hlo
  have hl0 : (0 : ℚ) < (limit : ℚ) := by exact_mod_cast lt_of_lt_of_le zero_lt_one hlo
  refine ⟨hceil, ?_, ?_, ?_⟩
  · rw [hceil]
    constructor
    · intro h
      have hnn : (0 : ℚ) ≤ (total : ℚ) / (limit : ℚ) :=
        div_nonneg (by exact_mod_cast htotal) hl0.le
      have hle : (total : ℚ) / (limit : ℚ) ≤ 0 := (Int.ceil_eq_zero_iff.mp h).2
      have h0 : (total : ℚ) / (limit : ℚ) = 0 := le_antisymm hle hnn
      have ht : (total : ℚ) = 0 := (div_eq_zero_iff.mp h0).resolve_right hl0.ne.symm
      exact_mod_cast ht
    · intro h
      subst h
      simp
  · simp [mkPaginationInfo]
  · simp [mkPaginationInfo]

/-- Witness for `pagination_math`: total = 25, page = 2, limit = 10. -/
theorem pagination_math_witness :
    ((0 : ℤ) ≤ 25 ∧ (1 : ℤ) ≤ 2 ∧ (1 : ℤ) ≤ 10 ∧ (10 : ℤ) ≤ 50) ∧
    ((mkPaginationInfo 2 10 25).totalPages = ⌈((25 : ℤ) : ℚ) / ((10 : ℤ) : ℚ)⌉ ∧
     ((mkPaginationInfo 2 10 25).totalPages = 0 ↔ (25 : ℤ) = 0) ∧
     ((mkPaginationInfo 2 10 25).hasNext = true ↔
       2 < (mkPaginationInfo 2 10 25).totalPages) ∧
     ((mkPaginationInfo 2 10 25).hasPrev = true ↔ (1 : ℤ) < 2)) ∧
    (mkPaginationInfo 2 10 25).totalPages = 3 :=
  ⟨⟨by decide, by decide, by decide, by decide⟩,
   pagination_math 25 2 10 (by decide) (by decide) (by decide) (by decide),
   by decide⟩

/-- C2 counterexample: a request whose query string parses to limit = 0
leaves the effective limit at 0, outside [1,50], and a request parsing
to page = 0 (with a well-formed limit 10) produces the negative offset
-10.  The handler clamps the limit from above only and never touches the
page. -/
theorem limit_page_clamp_counterexample :
    effLimit 0 = 0 ∧ ¬ (1 ≤ effLimit 0) ∧
    effPage 0 = 0 ∧ skipOf (effPage 0) (effLimit 10) = -10 ∧
    skipOf (effPage 0) (effLimit 10) < 0 := by decide

/-- C2 amended: the effective limit is clamped from above to 50 only, so
it lies in [1,50] whenever the requested limit is ≥ 1 (in particular
limit = 1000 yields 50); the page is used as parsed, so the offset
(page − 1) · limit is non-negative only when the parsed page is ≥ 1 and
the limit non-negative.  Requested limits < 1 and pages < 1 pass through
unclamped. -/
theorem limit_page_clamp_amended (p l : ℤ) :
    effLimit l ≤ 50 ∧
    (1 ≤ l → 1 ≤ effLimit l ∧ effLimit l ≤ 50) ∧
    (1 ≤ effPage p → 0 ≤ l → 0 ≤ skipOf (effPage p) l) ∧
    effLimit 1000 = 50 := by
  refine ⟨min_le_right _ _, fun h => ⟨le_min h (by omega), min_le_right _ _⟩, ?_, by decide⟩
  intro hp hl
  have hp1 : 0 ≤ effPage p - 1 := by simp only [effPage] at hp ⊢; omega
  calc (0 : ℤ) ≤ (effPage p - 1) * l := mul_nonneg hp1 hl
    _ = skipOf (effPage p) l := by rw [skipOf]

/-- Witness for `limit_page_clamp_amended`: page = 3, limit = 1000. -/
theorem limit_page_clamp_amended_witness :
    ((1 : ℤ) ≤ 1000 ∧ 1 ≤ effPage 3 ∧ (0 : ℤ) ≤ 1000) ∧
    (1 ≤ effLimit 1000 ∧ effLimit 1000 ≤ 50) ∧
    0 ≤ skipOf (effPage 3) 1000 ∧
    effLimit 1000 = 50 :=
  ⟨⟨by decide, by decide, by decide⟩,
   (limit_page_clamp_amended 3 1000).2.1 (by decide),
   (limit_page_clamp_amended 3 1000).2.2.1 (by decide) (by decide),
   (limit_page_clamp_amended 3 1000).2.2.2⟩

/-- C4: the effective sort field is the requested one when it is in the
allow-list {title, publishedYear, createdAt} and `createdAt` otherwise;
the effective order is the requested one when it is `asc` or `desc` and
`desc` otherwise.  Both normalizations are total functions: no input is
rejected. -/
theorem sort_normalization (s o : String) :
    sortField s ∈ validSortFields ∧
    (s ∈ validSortFields → sortField s = s) ∧
    (s ∉ validSortFields → sortField s = "createdAt") ∧
    ((o = "asc" ∨ o = "desc") → sortOrder o = o) ∧
    (¬ (o = "asc" ∨ o = "desc") → sortOrder o = "desc") := by
  refine ⟨?_, ?_, ?_, ?_, ?_⟩
  · by_cases h : s ∈ validSortFields
    · simpa [sortField, h]
    · simp only [sortField, h, if_false]
      decide
  · intro h
    simp [sortField, h]
  · intro h
    simp [sortField, h]
  · rintro (h | h) <;> simp [sortOrder, h]
  · intro h
    push_neg at h
    simp [sortOrder, h.1]

/-- Witness for `sort_normalization`: an allow-listed field, a rejected
field, a valid order and an invalid order. -/
theorem sort_normalization_witness :
    ("publishedYear" ∈ validSortFields ∧ sortField "publishedYear" = "publishedYear") ∧
    ("price" ∉ validSortFields ∧ sortField "price" = "createdAt") ∧
    (("asc" = "asc" ∨ ("asc" : String) = "desc") ∧ sortOrder "asc" = "asc") ∧
    (¬ ("up" = "asc" ∨ ("up" : String) = "desc") ∧ sortOrder "up" = "desc") :=
  ⟨⟨by decide, (sort_normalization "publishedYear" "x").2.1 (by decide)⟩,
   ⟨by decide, (sort_normalization "price" "x").2.2.1 (by decide)⟩,
   ⟨Or.inl rfl, (sort_normalization "x" "asc").2.2.2.1 (Or.inl rfl)⟩,
   ⟨by decide, (sort_normalization "x" "up").2.2.2.2 (by decide)⟩⟩

/-- C9: for an author whose book list is empty, the statistics endpoint
returns totalBooks = 0, all four book references null, averagePages = 0
and an empty genre list. -/
theorem stats_empty_list :
    computeStats [] =
      { totalBooks := 0
        firstBook := none
        latestBook := none
        averagePages := 0
        genres := []
        longestBook := none
        shortestBook := none } := rfl

/-- C3: the filter condition built by the query builder is exactly the
conjunction of the filters whose parameter is present and non-empty:
case-insensitive substring containment on the title for `search`,
case-insensitive substring containment on the owning author's name for
`authorName`, and exact equality on the genre; an empty parameter
contributes no condition at all. -/
theorem where_filters_conj (q : SearchQuery) (b : BookRow) :
    (buildWhere q).matches b = true ↔
      ((q.search ≠ "" → containsCI b.title q.search = true) ∧
       (q.genre ≠ "" → b.genre = some q.genre) ∧
       (q.authorName ≠ "" → containsCI b.authorName q.authorName = true)) := by
  simp only [buildWhere, WhereClause.matches, Bool.and_eq_true]
  by_cases h1 : q.search = "" <;> by_cases h2 : q.genre = "" <;>
    by_cases h3 : q.authorName = "" <;>
      simp [h1, h2, h3, and_assoc]

/-- Unfolding of `computeStats` on a non-empty list. -/
theorem computeStats_cons (x : Book) (xs : List Book) :
    computeStats (x :: xs) =
      { totalBooks := (x :: xs).length
        firstBook := ((x :: xs).filter fun b => b.publishedYear.isSome).head?.map
          fun (b : Book) => BookRef.mk b.title b.publishedYear
        latestBook := ((x :: xs).filter fun b => b.publishedYear.isSome).getLast?.map
          fun (b : Book) => BookRef.mk b.title b.publishedYear
        averagePages :=
          if 0 < ((x :: xs).filter fun b => b.pages.isSome).length then
            mathRoundDiv (sumPages ((x :: xs).filter fun b => b.pages.isSome))
              (((x :: xs).filter fun b => b.pages.isSome).length : ℤ)
          else 0
        genres := List.insertionSort (fun a b => strLE a b = true)
          ((x :: xs).filterMap truthyGenre).dedup
        longestBook :=
          (match (x :: xs).filter (fun (b : Book) => b.pages.isSome) with
            | [] => none
            | b :: bs => some (bs.foldl pickLongest b)).map
            fun (b : Book) => PagesRef.mk b.title b.pages
        shortestBook :=
          (match (x :: xs).filter (fun (b : Book) => b.pages.isSome) with
            | [] => none
            | b :: bs => some (bs.foldl pickShortest b)).map
            fun (b : Book) => PagesRef.mk b.title b.pages } := rfl

/-- The page counts of the page-defined subset, as a `filterMap`. -/
theorem map_pagesOr0_filter (books : List Book) :
    (books.filter fun b => b.pages.isSome).map pagesOr0 = books.filterMap Book.pages := by
  induction books with
  | nil => rfl
  | cons x xs ih =>
    cases hp : x.pages with
    | none => simp [List.filter_cons, List.filterMap_cons, hp, ih]
    | some v => simp [List.filter_cons, List.filterMap_cons, hp, pagesOr0, ih]

/-- Lemma: `sumPages` is the sum of the coalesced page counts. -/
theorem sumPages_eq (l : List Book) : sumPages l = (l.map pagesOr0).sum := by
  have key : ∀ (l : List Book) (s : ℤ),
      l.foldl (fun a b => a + pagesOr0 b) s = s + (l.map pagesOr0).sum := by
    intro l
    induction l with
    | nil => intro s; simp
    | cons x xs ih => intro s; simp [List.foldl_cons, ih, add_assoc]
  simpa [sumPages] using key l 0

/-- C6: `averagePages` is the rounded arithmetic mean of the page counts
over exactly the books with a defined page count, and 0 when no book has
one; the partition is independent of the year partition, so a book with
pages but no year still contributes. -/
theorem stats_average_pages (books : List Book) :
    (books.filterMap Book.pages = [] → (computeStats books).averagePages = 0) ∧
    (books.filterMap Book.pages ≠ [] →
      (computeStats books).averagePages =
        round (((books.filterMap Book.pages).sum : ℚ) /
          ((books.filterMap Book.pages).length : ℚ))) := by
  cases books with
  | nil => exact ⟨fun _ => rfl, fun h => absurd rfl h⟩
  | cons x xs =>
    rw [computeStats_cons]
    have hmap := map_pagesOr0_filter (x :: xs)
    have hlen : ((x :: xs).filter fun b => b.pages.isSome).length =
        ((x :: xs).filterMap Book.pages).length := by
      rw [← hmap, List.length_map]
    constructor
    · intro h
      have hnil : ((x :: xs).filter fun b => b.pages.isSome) = [] :=
        List.map_eq_nil_iff.mp (hmap.trans h)
      simp [hnil]
    · intro h
      have hpos : 0 < ((x :: xs).filter fun b => b.pages.isSome).length := by
        rw [hlen]
        exact List.length_pos.mpr h
      have h1 : (1 : ℤ) ≤ (((x :: xs).filter fun b => b.pages.isSome).length : ℤ) := by
        exact_mod_cast hpos
      have hr := mathRoundDiv_eq_round
        (sumPages ((x :: xs).filter fun b => b.pages.isSome))
        (((x :: xs).filter fun b => b.pages.isSome).length : ℤ) h1
      rw [if_pos hpos, hr, sumPages_eq, hmap, hlen]
      norm_cast

/-- Witness for `stats_average_pages`: pages [100, 200, 300] average to
200, and an all-null-pages list (one book with a year but no pages)
averages to 0. -/
theorem stats_average_pages_witness :
    ([Book.mk "p" "P" none (some 100) none, Book.mk "q" "Q" none (some 200) none,
      Book.mk "r" "R" none (some 300) none].filterMap Book.pages ≠ [] ∧
     (computeStats [Book.mk "p" "P" none (some 100) none, Book.mk "q" "Q" none (some 200) none,
      Book.mk "r" "R" none (some 300) none]).averagePages = 200) ∧
    ([Book.mk "n" "N" (some 1999) none none].filterMap Book.pages = [] ∧
     (computeStats [Book.mk "n" "N" (some 1999) none none]).averagePages = 0) :=
  ⟨⟨by decide, by decide⟩,
   by decide,
   (stats_average_pages [Book.mk "n" "N" (some 1999) none none]).1 (by decide)⟩

/-- Reflexivity of `yearLE`. -/
theorem yearLE_refl (a : Option ℤ) : yearLE a a = true := by
  cases a <;> simp [yearLE]

/-- In a `Pairwise`-ordered list with a reflexive relation, every element
relates to the last one. -/
theorem pairwise_rel_getLast {α : Type} {R : α → α → Prop} (hrefl : ∀ a, R a a) :
    ∀ {l : List α}, l.Pairwise R → ∀ b ∈ l, ∀ x, l.getLast? = some x → R b x := by
  intro l
  induction l with
  | nil =>
    intro _ b hb
    cases hb
  | cons a t ih =>
    intro hp b hb x hx
    rcases List.pairwise_cons.mp hp with ⟨ha, ht⟩
    cases t with
    | nil =>
      have hbx : b = a := by simpa using hb
      have hax : a = x := by simpa using hx
      rw [hbx, hax]
      exact hrefl x
    | cons c u =>
      have hx' : (c :: u).getLast? = some x := by
        simpa [List.getLast?_cons_cons] using hx
      rcases List.mem_cons.mp hb with rfl | hb'
      · exact ha x (List.mem_of_getLast?_eq_some hx')
      · exact ih ht b hb' x hx'

/-- C5: `firstBook` and `latestBook` are computed only from the subset of
books with a defined `publishedYear`, taking the first and the last
element of that subset in the order established by the store
(`publishedYear` ascending, nulls last); both are null exactly when no
book has a defined year, and under the sortedness hypothesis the first
book's year is minimal and the latest book's year maximal among the
defined years. -/
theorem stats_first_latest (books : List Book)
    (hne : books ≠ [])
    (hsorted : books.Pairwise fun a b => yearLE a.publishedYear b.publishedYear = true) :
    (computeStats books).firstBook =
      ((books.filter fun b => b.publishedYear.isSome).head?.map
        fun (b : Book) => BookRef.mk b.title b.publishedYear) ∧
    (computeStats books).latestBook =
      ((books.filter fun b => b.publishedYear.isSome).getLast?.map
        fun (b : Book) => BookRef.mk b.title b.publishedYear) ∧
    ((computeStats books).firstBook = none ↔
      (books.filter fun b => b.publishedYear.isSome) = []) ∧
    ((computeStats books).latestBook = none ↔
      (books.filter fun b => b.publishedYear.isSome) = []) ∧
    (∀ r, (computeStats books).firstBook = some r →
      ∀ b ∈ books, b.publishedYear.isSome → yearLE r.year b.publishedYear = true) ∧
    (∀ r, (computeStats books).latestBook = some r →
      ∀ b ∈ books, b.publishedYear.isSome → yearLE b.publishedYear r.year = true) := by
  obtain ⟨x, xs, rfl⟩ := List.exists_cons_of_ne_nil hne
  rw [computeStats_cons]
  have hpw : ((x :: xs).filter fun b => b.publishedYear.isSome).Pairwise
      (fun a b => yearLE a.publishedYear b.publishedYear = true) :=
    hsorted.sublist (List.filter_sublist _)
  refine ⟨rfl, rfl, ?_, ?_, ?_, ?_⟩
  · simp
  · simp
    tauto
  · intro r hr b hb hbs
    obtain ⟨c, hc, hcr⟩ := Option.map_eq_some'.mp hr
    have hbmem : b ∈ (x :: xs).filter fun b => b.publishedYear.isSome :=
      List.mem_filter.mpr ⟨hb, hbs⟩
    obtain ⟨t, ht⟩ : ∃ t, ((x :: xs).filter fun b => b.publishedYear.isSome) = c :: t := by
      cases hwy : (x :: xs).filter fun b => b.publishedYear.isSome with
      | nil => rw [hwy] at hc; cases hc
      | cons c' t =>
        rw [hwy] at hc
        simp only [List.head?_cons, Option.some.injEq] at hc
        exact ⟨t, by rw [hc]⟩
    rw [← hcr]
    rw [ht] at hbmem hpw
    rcases List.mem_cons.mp hbmem with rfl | hb'
    · exact yearLE_refl _
    · exact (List.pairwise_cons.mp hpw).1 b hb'
  · intro r hr b hb hbs
    obtain ⟨c, hc, hcr⟩ := Option.map_eq_some'.mp hr
    have hbmem : b ∈ (x :: xs).filter fun b => b.publishedYear.isSome :=
      List.mem_filter.mpr ⟨hb, hbs⟩
    rw [← hcr]
    exact @pairwise_rel_getLast Book (fun a b => yearLE a.publishedYear b.publishedYear = true)
      (fun a => yearLE_refl a.publishedYear) _ hpw b hbmem c hc

/-- Witness for `stats_first_latest` on the spec's example: defined years
[2001, 2010] give firstBook.year = 2001 and latestBook.year = 2010. -/
theorem stats_first_latest_witness :
    ([Book.mk "b1" "A" (some 2001) (some 100) none,
      Book.mk "b2" "B" (some 2010) none none] ≠ [] ∧
     [Book.mk "b1" "A" (some 2001) (some 100) none,
      Book.mk "b2" "B" (some 2010) none none].Pairwise
        (fun a b => yearLE a.publishedYear b.publishedYear = true)) ∧
    (computeStats [Book.mk "b1" "A" (some 2001) (some 100) none,
      Book.mk "b2" "B" (some 2010) none none]).firstBook = some (BookRef.mk "A" (some 2001)) ∧
    (computeStats [Book.mk "b1" "A" (some 2001) (some 100) none,
      Book.mk "b2" "B" (some 2010) none none]).latestBook = some (BookRef.mk "B" (some 2010)) ∧
    (computeStats [Book.mk "b1" "A" (some 2001) (some 100) none,
      Book.mk "b2" "B" (some 2010) none none]).firstBook ≠ none :=
  ⟨⟨by decide, by decide⟩, by decide, by decide, by
    have h := stats_first_latest
      [Book.mk "b1" "A" (some 2001) (some 100) none,
       Book.mk "b2" "B" (some 2010) none none] (by decide) (by decide)
    intro hcon
    exact absurd (h.2.2.1.mp hcon) (by decide)⟩

/-- Left-to-right reduce with a strict "better" test: the result occurs in
the list, every element is at most the result (under the key `f`), and
every element strictly before the result's occurrence is strictly below
it (first-wins on ties). -/
theorem foldl_best_decomp (f : Book → ℤ) :
    ∀ (xs : List Book) (x : Book),
      ∃ l₁ l₂,
        x :: xs = l₁ ++ (xs.foldl (fun acc b => if f acc < f b then b else acc) x) :: l₂ ∧
        (∀ c ∈ x :: xs, f c ≤ f (xs.foldl (fun acc b => if f acc < f b then b else acc) x)) ∧
        (∀ c ∈ l₁, f c < f (xs.foldl (fun acc b => if f acc < f b then b else acc) x)) := by
  intro xs
  induction xs with
  | nil =>
    intro x
    refine ⟨[], [], rfl, ?_, by simp⟩
    intro c hc
    have : c = x := by simpa using hc
    exact le_of_eq (congrArg f this)
  | cons y ys ih =>
    intro x
    rw [List.foldl_cons]
    by_cases h : f x < f y
    · rw [if_pos h]
      obtain ⟨l₁, l₂, hdec, hmax, hstrict⟩ := ih y
      refine ⟨x :: l₁, l₂, ?_, ?_, ?_⟩
      · rw [List.cons_append, ← hdec]
      · intro c hc
        rcases List.mem_cons.mp hc with rfl | hc2
        · exact le_of_lt (lt_of_lt_of_le h (hmax y (List.mem_cons_self _ _)))
        · exact hmax c hc2
      · intro c hc
        rcases List.mem_cons.mp hc with rfl | hc2
        · exact lt_of_lt_of_le h (hmax y (List.mem_cons_self _ _))
        · exact hstrict c hc2
    · rw [if_neg h]
      obtain ⟨l₁, l₂, hdec, hmax, hstrict⟩ := ih x
      cases l₁ with
      | nil =>
        simp only [List.nil_append] at hdec
        injection hdec with h1 h2
        refine ⟨[], y :: l₂, ?_, ?_, by simp⟩
        · rw [List.nil_append]
          rw [← h1, ← h2]
        · intro c hc
          rcases List.mem_cons.mp hc with rfl | hc2
          · exact le_of_eq (congrArg f h1)
          · rcases List.mem_cons.mp hc2 with rfl | hc3
            · exact le_trans (not_lt.mp h) (le_of_eq (congrArg f h1))
            · exact hmax c (List.mem_cons_of_mem _ hc3)
      | cons z l₁t =>
        rw [List.cons_append] at hdec
        injection hdec with h1 h2
        subst h1
        refine ⟨x :: y :: l₁t, l₂, ?_, ?_, ?_⟩
        · rw [List.cons_append, List.cons_append, ← h2]
        · intro c hc
          rcases List.mem_cons.mp hc with rfl | hc2
          · exact hmax c (List.mem_cons_self _ _)
          · rcases List.mem_cons.mp hc2 with rfl | hc3
            · exact le_trans (not_lt.mp h) (hmax x (List.mem_cons_self _ _))
            · exact hmax c (List.mem_cons_of_mem _ hc3)
        · intro c hc
          rcases List.mem_cons.mp hc with rfl | hc2
          · exact hstrict c (List.mem_cons_self _ _)
          · rcases List.mem_cons.mp hc2 with rfl | hc3
            · exact lt_of_le_of_lt (not_lt.mp h) (hstrict x (List.mem_cons_self _ _))
            · exact hstrict c (List.mem_cons_of_mem _ hc3)

/-- The two reduce steps of the route, as instances of the generic step. -/
theorem pickLongest_eq_step :
    pickLongest = fun acc b => if pagesOr0 acc < pagesOr0 b then b else acc := rfl

/-- Lemma: `pickShortest` is the generic step for the negated key. -/
theorem pickShortest_eq_step :
    pickShortest =
      fun acc b => if (fun c => -pagesOr0 c) acc < (fun c => -pagesOr0 c) b then b else acc := by
  funext acc b
  simp only [pickShortest, neg_lt_neg_iff]

/-- C7: `longestBook` and `shortestBook` are a maximum and a minimum by
page count over the books with a defined page count (null exactly when
that subset is empty), and on ties the book returned is the first one in
input order: the subset splits as `l₁ ++ m :: l₂` with the returned book
`m` at least (resp. at most) every element and strictly above (resp.
below) everything in `l₁`. -/
theorem stats_extremes (books : List Book) :
    ((computeStats books).longestBook = none ↔
      (books.filter fun b => b.pages.isSome) = []) ∧
    ((computeStats books).shortestBook = none ↔
      (books.filter fun b => b.pages.isSome) = []) ∧
    (∀ r, (computeStats books).longestBook = some r →
      ∃ l₁ m l₂, (books.filter fun b => b.pages.isSome) = l₁ ++ m :: l₂ ∧
        r = PagesRef.mk m.title m.pages ∧
        (∀ c ∈ books.filter fun b => b.pages.isSome, pagesOr0 c ≤ pagesOr0 m) ∧
        (∀ c ∈ l₁, pagesOr0 c < pagesOr0 m)) ∧
    (∀ r, (computeStats books).shortestBook = some r →
      ∃ l₁ m l₂, (books.filter fun b => b.pages.isSome) = l₁ ++ m :: l₂ ∧
        r = PagesRef.mk m.title m.pages ∧
        (∀ c ∈ books.filter fun b => b.pages.isSome, pagesOr0 m ≤ pagesOr0 c) ∧
        (∀ c ∈ l₁, pagesOr0 m < pagesOr0 c)) := by
  cases books with
  | nil =>
    refine ⟨by simp [computeStats], by simp [computeStats], ?_, ?_⟩ <;>
      · intro r hr
        simp [computeStats] at hr
  | cons x xs =>
    rw [computeStats_cons]
    cases hwp : (x :: xs).filter (fun (b : Book) => b.pages.isSome) with
    | nil => simp
    | cons y ys =>
      refine ⟨by simp, by simp, ?_, ?_⟩
      · intro r hr
        simp only [Option.map_eq_some'] at hr
        obtain ⟨m, hm, hmr⟩ := hr
        have hm2 : ys.foldl pickLongest y = m := by
          simpa using hm
        obtain ⟨l₁, l₂, hdec, hmax, hstrict⟩ := foldl_best_decomp pagesOr0 ys y
        rw [pickLongest_eq_step] at hm2
        rw [hm2] at hdec hmax hstrict
        exact ⟨l₁, m, l₂, hdec, hmr.symm, fun c hc => hmax c hc, hstrict⟩
      · intro r hr
        simp only [Option.map_eq_some'] at hr
        obtain ⟨m, hm, hmr⟩ := hr
        have hm2 : ys.foldl pickShortest y = m := by
          simpa using hm
        obtain ⟨l₁, l₂, hdec, hmax, hstrict⟩ := foldl_best_decomp (fun c => -pagesOr0 c) ys y
        rw [pickShortest_eq_step] at hm2
        rw [hm2] at hdec hmax hstrict
        refine ⟨l₁, m, l₂, hdec, hmr.symm, ?_, ?_⟩
        · intro c hc
          have := hmax c hc
          simpa using this
        · intro c hc
          have := hstrict c hc
          simpa using this

/-- Witness for `stats_extremes`: pages [300, 100, 300] (titles X, Y, Z):
the longest book is X (first of the tied pair) and the shortest is Y. -/
theorem stats_extremes_witness :
    (computeStats [Book.mk "x" "X" none (some 300) none, Book.mk "y" "Y" none (some 100) none,
      Book.mk "z" "Z" none (some 300) none]).longestBook = some (PagesRef.mk "X" (some 300)) ∧
    (computeStats [Book.mk "x" "X" none (some 300) none, Book.mk "y" "Y" none (some 100) none,
      Book.mk "z" "Z" none (some 300) none]).shortestBook = some (PagesRef.mk "Y" (some 100)) ∧
    (∃ l₁ m l₂,
      ([Book.mk "x" "X" none (some 300) none, Book.mk "y" "Y" none (some 100) none,
        Book.mk "z" "Z" none (some 300) none].filter fun b => b.pages.isSome) = l₁ ++ m :: l₂ ∧
      PagesRef.mk "X" (some 300) = PagesRef.mk m.title m.pages ∧
      (∀ c ∈ [Book.mk "x" "X" none (some 300) none, Book.mk "y" "Y" none (some 100) none,
        Book.mk "z" "Z" none (some 300) none].filter fun b => b.pages.isSome,
          pagesOr0 c ≤ pagesOr0 m) ∧
      (∀ c ∈ l₁, pagesOr0 c < pagesOr0 m)) :=
  ⟨by decide, by decide,
   (stats_extremes [Book.mk "x" "X" none (some 300) none, Book.mk "y" "Y" none (some 100) none,
     Book.mk "z" "Z" none (some 300) none]).2.2.1 (PagesRef.mk "X" (some 300)) (by decide)⟩

/-- Lemma: `lexLE` decides the lexicographic order on `List Char`. -/
theorem lexLE_iff_le : ∀ as bs : List Char, lexLE as bs = true ↔ as ≤ bs := by
  intro as
  induction as with
  | nil =>
    intro bs
    simp [lexLE]
  | cons a as ih =>
    intro bs
    cases bs with
    | nil =>
      simp only [lexLE, Bool.false_eq_true, false_iff]
      intro hle
      exact absurd (lt_of_lt_of_le (List.nil_lt_cons a as) hle) (lt_irrefl _)
    | cons b bs =>
      by_cases hab : a < b
      · simp only [lexLE, if_pos hab, true_iff]
        exact le_of_lt (List.Lex.rel hab)
      · by_cases heq : a = b
        · subst heq
          simp only [lexLE, if_neg hab, eq_self_iff_true, if_true]
          rw [ih bs]
          constructor
          · intro h2
            exact List.cons_le_cons a h2
          · intro h2
            rw [← not_lt] at h2 ⊢
            intro hlt
            exact h2 (List.Lex.cons hlt)
        · have hba : b < a :=
            lt_of_le_of_ne (not_lt.mp hab) fun hba2 => heq hba2.symm
          simp only [lexLE, if_neg hab, if_neg heq, Bool.false_eq_true, false_iff]
          exact not_le.mpr (List.Lex.rel hba)

/-- Lemma: `strLE` decides `≤` on strings. -/
theorem strLE_iff_le (a b : String) : strLE a b = true ↔ a ≤ b := by
  rw [strLE, lexLE_iff_le, String.le_iff_toList_le]

/-- Characterization of `truthyGenre`: it keeps exactly the non-null,
non-empty genre values. -/
theorem truthyGenre_eq_some (b : Book) (g : String) :
    truthyGenre b = some g ↔ (b.genre = some g ∧ g ≠ "") := by
  unfold truthyGenre
  rcases hbg : b.genre with _ | g2
  · simp
  · by_cases hg2 : g2 = ""
    · subst hg2
      simp
      exact fun h => h.symm
    · simp only [hg2, if_false, Option.some.injEq]
      constructor
      · intro h
        subst h
        exact ⟨rfl, hg2⟩
      · intro h
        exact h.1

/-- C8 amended: for every input book list the `genres` field is sorted
ascending and duplicate-free, and its elements are exactly the truthy
genre values of the list: the genre strings that are non-null **and
non-empty** (the route filters genres by JavaScript truthiness, so the
empty string is dropped along with nulls). -/
theorem stats_genres_amended (books : List Book) :
    (computeStats books).genres.Sorted (· ≤ ·) ∧
    (computeStats books).genres.Nodup ∧
    (∀ g, g ∈ (computeStats books).genres ↔
      ((∃ b ∈ books, b.genre = some g) ∧ g ≠ "")) := by
  cases books with
  | nil =>
    refine ⟨by simp [computeStats], by simp [computeStats], ?_⟩
    intro g
    simp [computeStats]
  | cons x xs =>
    rw [computeStats_cons]
    haveI htot : IsTotal String (fun a b => strLE a b = true) := ⟨fun a b => by
      rw [strLE_iff_le, strLE_iff_le]
      exact le_total a b⟩
    haveI htrans : IsTrans String (fun a b => strLE a b = true) := ⟨fun a b c hab hbc => by
      rw [strLE_iff_le] at hab hbc ⊢
      exact le_trans hab hbc⟩
    refine ⟨?_, ?_, ?_⟩
    · exact (List.sorted_insertionSort _ _).imp fun h => (strLE_iff_le _ _).mp h
    · exact ((List.perm_insertionSort _ _).nodup_iff).mpr (List.nodup_dedup _)
    · intro g
      rw [(List.perm_insertionSort _ _).mem_iff, List.mem_dedup, List.mem_filterMap]
      constructor
      · rintro ⟨b, hb, htg⟩
        obtain ⟨hbg, hg⟩ := (truthyGenre_eq_some b g).mp htg
        exact ⟨⟨b, hb, hbg⟩, hg⟩
      · rintro ⟨⟨b, hb, hbg⟩, hg⟩
        exact ⟨b, hb, (truthyGenre_eq_some b g).mpr ⟨hbg, hg⟩⟩

/-- C8 counterexample: a single book whose genre is the empty string (a
non-null value).  The route's truthiness filter drops it, so `genres` is
empty even though a non-null genre value occurs in the list. -/
theorem stats_genres_counterexample :
    (computeStats [Book.mk "g1" "t" none none (some "")]).genres = [] ∧
    (Book.mk "g1" "t" none none (some "")).genre = some "" ∧
    "" ∉ (computeStats [Book.mk "g1" "t" none none (some "")]).genres := by
  refine ⟨by decide, rfl, by decide⟩

/-- C10 amended: `firstBook` is null iff `latestBook` is null (exactly
when no book has a defined year), `longestBook` is null iff
`shortestBook` is null (exactly when no book has a defined page count),
and in that page-free case `averagePages` is 0.  (The converse of the
last point fails: `averagePages` can be 0 with defined page counts, see
the counterexample.) -/
theorem stats_null_pairing (books : List Book) :
    ((computeStats books).firstBook = none ↔ (computeStats books).latestBook = none) ∧
    ((computeStats books).firstBook = none ↔ ∀ b ∈ books, b.publishedYear = none) ∧
    ((computeStats books).longestBook = none ↔ (computeStats books).shortestBook = none) ∧
    ((computeStats books).longestBook = none ↔ ∀ b ∈ books, b.pages = none) ∧
    ((computeStats books).longestBook = none → (computeStats books).averagePages = 0) := by
  cases books with
  | nil =>
    exact ⟨by simp [computeStats], by simp [computeStats], by simp [computeStats],
      by simp [computeStats], by simp [computeStats]⟩
  | cons x xs =>
    rw [computeStats_cons]
    refine ⟨?_, ?_, ?_⟩
    · simp
      tauto
    · simp [List.filter_eq_nil_iff]
    · cases hwp : (x :: xs).filter (fun (b : Book) => b.pages.isSome) with
      | nil =>
        have hall : ∀ b ∈ x :: xs, b.pages = none := by
          intro b hb
          have h2 := List.filter_eq_nil_iff.mp hwp b hb
          simpa using h2
        refine ⟨by simp, iff_of_true (by simp) hall, by simp⟩
      | cons y ys =>
        have hymem : y ∈ (x :: xs).filter (fun (b : Book) => b.pages.isSome) := by
          rw [hwp]
          exact List.mem_cons_self y ys
        obtain ⟨hyin, hys⟩ := List.mem_filter.mp hymem
        refine ⟨by simp, ?_, ?_⟩
        · refine iff_of_false (by simp) ?_
          intro hall
          rw [hall y hyin] at hys
          cases hys
        · intro h
          simp at h
  
/-- C10 counterexample: one book with a defined page count of 0.  Its
`longestBook` is non-null while `averagePages` is 0, so "longestBook and
shortestBook are null exactly when averagePages is 0" fails: a null
extreme implies a zero average but not conversely. -/
theorem stats_null_pairing_counterexample :
    (computeStats [Book.mk "z0" "z" none (some 0) none]).averagePages = 0 ∧
    (computeStats [Book.mk "z0" "z" none (some 0) none]).longestBook ≠ none := by decide

/-- Witness for `stats_null_pairing`: a one-book list with a year but no
pages. -/
theorem stats_null_pairing_witness :
    (computeStats [Book.mk "n" "N" (some 1999) none none]).longestBook = none ∧
    (computeStats [Book.mk "n" "N" (some 1999) none none]).averagePages = 0 :=
  ⟨by decide,
   (stats_null_pairing [Book.mk "n" "N" (some 1999) none none]).2.2.2.2 (by decide)⟩

/-- Witness for `where_filters_conj`: search term "great", no genre
filter, author-name filter "aus", against a matching row. -/
theorem where_filters_conj_witness :
    ((buildWhere (SearchQuery.mk "great" "" "aus")).matches
        (BookRow.mk "b1" "The Great Gatsby" (some "novel") "Jane Austen") = true ↔
      (("great" : String) ≠ "" → containsCI "The Great Gatsby" "great" = true) ∧
      (("" : String) ≠ "" → (some "novel" : Option String) = some "") ∧
      (("aus" : String) ≠ "" → containsCI "Jane Austen" "aus" = true)) ∧
    (buildWhere (SearchQuery.mk "great" "" "aus")).matches
        (BookRow.mk "b1" "The Great Gatsby" (some "novel") "Jane Austen") = true :=
  ⟨where_filters_conj (SearchQuery.mk "great" "" "aus")
      (BookRow.mk "b1" "The Great Gatsby" (some "novel") "Jane Austen"),
   by decide⟩

/-- Witness for `stats_genres_amended`: genres [scifi, drama, scifi]
come out as the sorted duplicate-free list [drama, scifi]. -/
theorem stats_genres_amended_witness :
    (computeStats [Book.mk "ga" "T" none none (some "scifi"),
      Book.mk "gb" "U" none none (some "drama"),
      Book.mk "gc" "V" none none (some "scifi")]).genres.Sorted (· ≤ ·) ∧
    (computeStats [Book.mk "ga" "T" none none (some "scifi"),
      Book.mk "gb" "U" none none (some "drama"),
      Book.mk "gc" "V" none none (some "scifi")]).genres = ["drama", "scifi"] :=
  ⟨(stats_genres_amended [Book.mk "ga" "T" none none (some "scifi"),
      Book.mk "gb" "U" none none (some "drama"),
      Book.mk "gc" "V" none none (some "scifi")]).1,
   by decide⟩

end Catalog
